import Mathlib

/-!
Shallow embedding of the job-lifecycle core of the video-to-mp3 server
(`src/server/index.js`): the in-memory job store, the upload / status /
download HTTP handlers, the ffmpeg orchestration callbacks of
`convertToMp3`, `scheduleCleanup`, its deferred timer callback, and the
periodic eviction sweep.  Time (`Date.now()`) is modelled as an explicit
`Nat` parameter, the filesystem as the list of paths currently present,
and a fallible `fs.unlinkSync` through an explicit outcome record.
-/

namespace VMp3

/-- Job status strings used by the server: `'queued' | 'processing' | 'done' | 'error'`. -/
inductive Status where
  | queued
  | processing
  | done
  | error
deriving DecidableEq, Repr

/-- The job record created in the `POST /api/upload` handler and mutated by the
`convertToMp3` callbacks and `scheduleCleanup`.  `cleanupTimer` models whether the
`setTimeout` handle has been stored on the record. -/
structure Job where
  id : String
  status : Status
  progress : Int
  inputPath : String
  outputPath : String
  errorMessage : Option String
  createdAt : Nat
  finishedAt : Option Nat
  expiresAt : Option Nat
  cleanupTimer : Bool
deriving DecidableEq, Repr

/-- The in-memory `jobs` Map, modelled as an association list keyed by job id. -/
abbrev Store := List (String × Job)

/-- Model of `jobs.get(id)`. -/
def storeGet : Store → String → Option Job
  | [], _ => none
  | (k, j) :: rest, id => if k = id then some j else storeGet rest id

/-- Model of `jobs.set(id, job)` (replace an existing binding or append a new one). -/
def storeSet : Store → String → Job → Store
  | [], id, j => [(id, j)]
  | (k, x) :: rest, id, j =>
    if k = id then (id, j) :: rest else (k, x) :: storeSet rest id j

/-- Model of `jobs.delete(id)` (removing an absent key is a no-op). -/
def storeDelete : Store → String → Store
  | [], _ => []
  | (k, x) :: rest, id =>
    if k = id then storeDelete rest id else (k, x) :: storeDelete rest id

/-- Mutation of the record stored under `id` (JS mutates the shared object in place;
an absent id makes the mutation invisible to the store). -/
def updateJob : Store → String → (Job → Job) → Store
  | [], _, _ => []
  | (k, x) :: rest, id, f =>
    if k = id then (k, f x) :: updateJob rest id f else (k, x) :: updateJob rest id f

/-- The filesystem, modelled as the list of paths currently present on disk. -/
abbrev Disk := List String

/-- Model of `fs.existsSync(p)`. -/
def diskHas : Disk → String → Bool
  | [], _ => false
  | q :: rest, p => if q = p then true else diskHas rest p

/-- Effect of a successful `fs.unlinkSync(p)` on the disk. -/
def diskRemove : Disk → String → Disk
  | [], _ => []
  | q :: rest, p => if q = p then diskRemove rest p else q :: diskRemove rest p

/-- Whether each of the two `fs.unlinkSync` calls of a cleanup body throws. -/
structure FsOutcome where
  inputUnlinkFails : Bool
  outputUnlinkFails : Bool
deriving DecidableEq, Repr

/-- Outcome in which both deletions succeed. -/
def fsOk : FsOutcome := ⟨false, false⟩

/-- Model of `if (p && fs.existsSync(p)) fs.unlinkSync(p)`: `none` signals a thrown
filesystem error (the file is left in place), `some d` the resulting disk. -/
def unlinkIfPresent (d : Disk) (p : String) (fails : Bool) : Option Disk :=
  if p ≠ "" ∧ diskHas d p = true then
    if fails then none else some (diskRemove d p)
  else some d

/-- The shared try/catch cleanup body of the timer callback and of the sweep:
delete `inputPath`, then `outputPath`; a thrown error is caught, skipping
whatever deletion work remains. -/
def tryUnlinkFiles (d : Disk) (job : Job) (o : FsOutcome) : Disk :=
  match unlinkIfPresent d job.inputPath o.inputUnlinkFails with
  | none => d
  | some d1 =>
    match unlinkIfPresent d1 job.outputPath o.outputUnlinkFails with
    | none => d1
    | some d2 => d2

/-- Model of `scheduleCleanup(jobId, delayMs)`: look the job up (return unchanged
when absent), set `expiresAt = Date.now() + delayMs` and store the timer handle. -/
def scheduleCleanup (st : Store) (jobId : String) (delayMs : Nat) (now : Nat) : Store :=
  match storeGet st jobId with
  | none => st
  | some _ =>
    updateJob st jobId (fun j => { j with expiresAt := some (now + delayMs), cleanupTimer := true })

/-- The deferred `setTimeout` callback of `scheduleCleanup`: best-effort deletion of
the captured job's files (errors caught), then `jobs.delete(jobId)` unconditionally. -/
def cleanupTimerFire (st : Store) (d : Disk) (jobId : String) (captured : Job)
    (o : FsOutcome) : Store × Disk :=
  (storeDelete st jobId, tryUnlinkFiles d captured o)

/-- The sweep's expiry test `job.expiresAt && job.expiresAt <= now`
(`expiresAt` equal to `0` is falsy in JS). -/
def sweepEntry (job : Job) (now : Nat) : Bool :=
  match job.expiresAt with
  | some t => decide (t ≠ 0 ∧ t ≤ now)
  | none => false

/-- One pass of the `setInterval` sweep loop over a snapshot of the entries:
for each expired job, run the cleanup body and remove it from the store. -/
def sweepGo (entries : List (String × Job)) (st : Store) (d : Disk) (now : Nat)
    (o : String → FsOutcome) : Store × Disk :=
  match entries with
  | [] => (st, d)
  | (id, job) :: rest =>
    if sweepEntry job now then
      sweepGo rest (storeDelete st id) (tryUnlinkFiles d job (o id)) now o
    else
      sweepGo rest st d now o

/-- One firing of the periodic sweep over the whole store. -/
def sweepOnce (st : Store) (d : Disk) (now : Nat) (o : String → FsOutcome) : Store × Disk :=
  sweepGo st st d now o

/-- The outputs directory `path.join(__dirname, '..', 'tmp', 'outputs')`. -/
def OUT_DIR : String := "server/../tmp/outputs"

/-- Output artifact location `path.join(OUT_DIR, jobId + '.mp3')`; uuid job ids
contain no path separators, so the join performs no normalisation. -/
def outputPathFor (jobId : String) : String := OUT_DIR ++ "/" ++ (jobId ++ ".mp3")

/-- The job record built in the upload handler: `status: 'queued'`, `progress: 0`,
paths fixed at creation, no error, no timestamps beyond `createdAt`. -/
def mkJob (jobId : String) (inputPath : String) (now : Nat) : Job :=
  { id := jobId
    status := .queued
    progress := 0
    inputPath := inputPath
    outputPath := outputPathFor jobId
    errorMessage := none
    createdAt := now
    finishedAt := none
    expiresAt := none
    cleanupTimer := false }

/-- The `202 Accepted` payload of `POST /api/upload`. -/
structure UploadResp where
  jobId : String
  statusUrl : String
  downloadUrl : String
deriving DecidableEq, Repr

/-- The synchronous part of the upload handler: create the job record, register it
in the store and answer `202`; `convertToMp3` only runs on a later tick. -/
def uploadCreate (st : Store) (jobId : String) (inputPath : String) (now : Nat) :
    Store × UploadResp :=
  (storeSet st jobId (mkJob jobId inputPath now),
   { jobId := jobId
     statusUrl := "/api/status/" ++ jobId
     downloadUrl := "/api/download/" ++ jobId })

/-- The entry of `convertToMp3`: fetch the job (return when absent) and set
`status = 'processing'`. -/
def convertStart (st : Store) (jobId : String) : Store :=
  match storeGet st jobId with
  | none => st
  | some _ => updateJob st jobId (fun j => { j with status := .processing })

/-- JavaScript `Math.round` (half-up, toward positive infinity) on a rational. -/
def jsRound (q : ℚ) : Int := Int.floor (q + 1 / 2)

/-- JavaScript `p.percent || 0`: an absent (or zero) percentage defaults to `0`. -/
def jsOrZero (p : Option ℚ) : ℚ :=
  match p with
  | none => 0
  | some q => if q = 0 then 0 else q

/-- The `'progress'` handler: `job.progress = Math.round(p.percent || 0)`. -/
def onProgress (st : Store) (jobId : String) (p : Option ℚ) : Store :=
  updateJob st jobId (fun j => { j with progress := jsRound (jsOrZero p) })

/-- The `'end'` handler: `status = 'done'`, `progress = 100`, stamp `finishedAt`,
then `scheduleCleanup(jobId)` with the default TTL delay. -/
def onEnd (st : Store) (jobId : String) (ttl : Nat) (now : Nat) : Store :=
  scheduleCleanup
    (updateJob st jobId
      (fun j => { j with status := .done, progress := 100, finishedAt := some now }))
    jobId ttl now

/-- The `'error'` handler: `status = 'error'`, record the message, stamp
`finishedAt`, then `scheduleCleanup(jobId)`. -/
def onErrorEvent (st : Store) (jobId : String) (msg : String) (ttl : Nat) (now : Nat) : Store :=
  scheduleCleanup
    (updateJob st jobId
      (fun j => { j with status := .error, errorMessage := some msg, finishedAt := some now }))
    jobId ttl now

/-- The catch block of `convertToMp3`: `status = 'error'`, record the message and
`scheduleCleanup(jobId)` — unlike the `'error'` handler it does not stamp `finishedAt`. -/
def onCatch (st : Store) (jobId : String) (msg : String) (ttl : Nat) (now : Nat) : Store :=
  scheduleCleanup
    (updateJob st jobId
      (fun j => { j with status := .error, errorMessage := some msg }))
    jobId ttl now

/-- Payload of a `200` answer from `GET /api/status/:id` (absent JSON fields are `none`). -/
structure StatusPayload where
  id : String
  status : Status
  progress : Int
  downloadUrl : Option String
  errorMessage : Option String
deriving DecidableEq, Repr

/-- Result of `GET /api/status/:id`. -/
inductive StatusResp where
  | notFound
  | ok (payload : StatusPayload)
deriving DecidableEq, Repr

/-- The status handler: `404` for an unknown id, otherwise the projection of the
record; `downloadUrl` only when done, `error` echoes `job.error`, and
`job.progress || 0` maps a zero (or unset) progress to `0`. -/
def statusHandler (st : Store) (jobId : String) : StatusResp :=
  match storeGet st jobId with
  | none => .notFound
  | some job =>
    .ok
      { id := job.id
        status := job.status
        progress := if job.progress = 0 then 0 else job.progress
        downloadUrl := if job.status = .done then some ("/api/download/" ++ job.id) else none
        errorMessage := job.errorMessage }

/-- Result of `GET /api/download/:id`. -/
inductive DownloadResp where
  | notFound
  | notReady
  | fileStream (path : String) (filename : String)
deriving DecidableEq, Repr

/-- The download handler: `404` for an unknown id; `400` when the status is not
`'done'` or the output file is gone from disk; otherwise stream the artifact. -/
def downloadHandler (st : Store) (d : Disk) (jobId : String) : DownloadResp :=
  match storeGet st jobId with
  | none => .notFound
  | some job =>
    if job.status ≠ Status.done ∨ diskHas d job.outputPath = false then .notReady
    else .fileStream job.outputPath ("audio-" ++ job.id ++ ".mp3")

/-- One asynchronous callback touching a given job's lifecycle: the deferred
`convertToMp3` start, the three ffmpeg events, the synchronous catch of
`convertToMp3`, the job's cleanup timer firing (with the record it captured),
and a firing of the global sweep. -/
inductive Ev where
  | start
  | progress (p : Option ℚ)
  | success (now : Nat)
  | failure (msg : String) (now : Nat)
  | exn (msg : String) (now : Nat)
  | timerFired (captured : Job) (o : FsOutcome)
  | sweep (now : Nat) (o : String → FsOutcome)

/-- Effect of one callback on the store and the disk. -/
def applyEv (ttl : Nat) (jobId : String) : Store × Disk → Ev → Store × Disk
  | (st, d), .start => (convertStart st jobId, d)
  | (st, d), .progress p => (onProgress st jobId p, d)
  | (st, d), .success now => (onEnd st jobId ttl now, d)
  | (st, d), .failure msg now => (onErrorEvent st jobId msg ttl now, d)
  | (st, d), .exn msg now => (onCatch st jobId msg ttl now, d)
  | (st, d), .timerFired captured o => cleanupTimerFire st d jobId captured o
  | (st, d), .sweep now o => sweepOnce st d now o

/-- Sequential execution of a list of callbacks. -/
def runEvents (ttl : Nat) (jobId : String) (sys : Store × Disk) (es : List Ev) : Store × Disk :=
  es.foldl (applyEv ttl jobId) sys

/-- Event admissibility under the encoder adapter's contract (`started` records
whether `convertToMp3` has begun, `finished` whether a terminal outcome was
already delivered): ffmpeg events require a started, unfinished run, and the run
delivers at most one terminal outcome.  Timer and sweep callbacks are free. -/
def evReq (started finished : Bool) : Ev → Bool
  | .start => !finished
  | .progress _ => started && !finished
  | .success _ => started && !finished
  | .failure _ _ => started && !finished
  | .exn _ _ => started && !finished
  | .timerFired _ _ => true
  | .sweep _ _ => true

/-- Automaton step tracking `started`/`finished` across one callback. -/
def evNext (started finished : Bool) : Ev → Bool × Bool
  | .start => (true, finished)
  | .success _ => (started, true)
  | .failure _ _ => (started, true)
  | .exn _ _ => (started, true)
  | _ => (started, finished)

/-- A callback sequence admissible from a given automaton state. -/
def validFrom (started finished : Bool) : List Ev → Bool
  | [] => true
  | e :: es =>
    evReq started finished e && validFrom (evNext started finished e).1 (evNext started finished e).2 es

/-- Status of the record stored under an id, when present. -/
def statusAt (st : Store) (jobId : String) : Option Status :=
  (storeGet st jobId).map Job.status

/-- Admissible one-step evolution of an observed status: forward through
`queued → processing → {done, error}`, terminal states frozen, and a deleted
record stays deleted. -/
def statusStepOk : Option Status → Option Status → Bool
  | some .queued, some .queued => true
  | some .queued, some .processing => true
  | some .processing, some .processing => true
  | some .processing, some .done => true
  | some .processing, some .error => true
  | some .done, some .done => true
  | some .error, some .error => true
  | some _, none => true
  | none, none => true
  | _, _ => false

/-- The record errorMessage field is populated exactly on status `'error'`. -/
def JobWF (j : Job) : Prop := j.errorMessage.isSome = true ↔ j.status = .error

/-- Invariant tying the admissibility automaton to the stored record: before the
start the job is queued, during an unfinished run it is processing, after the
terminal outcome it is done or error; in each case the error message matches. -/
def jobInv (started finished : Bool) (oj : Option Job) : Prop :=
  match oj with
  | none => True
  | some j =>
    JobWF j ∧
      (if finished then j.status = .done ∨ j.status = .error
       else if started then j.status = .processing
       else j.status = .queued)

theorem storeGet_updateJob_self (st : Store) (id : String) (f : Job → Job) :
    storeGet (updateJob st id f) id = (storeGet st id).map f := by
  induction st with
  | nil => rfl
  | cons p rest ih =>
    obtain ⟨k, x⟩ := p
    by_cases h : k = id <;> simp [storeGet, updateJob, h, ih]

theorem updateJob_absent (st : Store) (id : String) (f : Job → Job)
    (h : storeGet st id = none) : updateJob st id f = st := by
  induction st with
  | nil => rfl
  | cons p rest ih =>
    obtain ⟨k, x⟩ := p
    by_cases hk : k = id
    · simp [storeGet, hk] at h
    · simp [storeGet, hk] at h
      simp [updateJob, hk, ih h]

theorem storeGet_storeDelete_self (st : Store) (id : String) :
    storeGet (storeDelete st id) id = none := by
  induction st with
  | nil => rfl
  | cons p rest ih =>
    obtain ⟨k, x⟩ := p
    by_cases h : k = id <;> simp [storeGet, storeDelete, h, ih]

theorem storeGet_storeDelete_ne (st : Store) (k id : String) (h : k ≠ id) :
    storeGet (storeDelete st k) id = storeGet st id := by
  induction st with
  | nil => rfl
  | cons p rest ih =>
    obtain ⟨k2, x⟩ := p
    by_cases h2 : k2 = k
    · subst h2
      simp [storeDelete, storeGet, h, Ne.symm h, ih]
    · simp only [storeDelete, if_neg h2]
      by_cases h3 : k2 = id <;> simp [storeGet, h3, ih]

theorem storeDelete_absent (st : Store) (id : String) (h : storeGet st id = none) :
    storeDelete st id = st := by
  induction st with
  | nil => rfl
  | cons p rest ih =>
    obtain ⟨k, x⟩ := p
    by_cases hk : k = id
    · simp [storeGet, hk] at h
    · simp [storeGet, hk] at h
      simp [storeDelete, hk, ih h]

theorem storeGet_storeSet_self (st : Store) (id : String) (j : Job) :
    storeGet (storeSet st id j) id = some j := by
  induction st with
  | nil => simp [storeSet, storeGet]
  | cons p rest ih =>
    obtain ⟨k, x⟩ := p
    by_cases h : k = id <;> simp [storeSet, storeGet, h, ih]

theorem storeGet_scheduleCleanup_self (st : Store) (id : String) (t n : Nat) :
    storeGet (scheduleCleanup st id t n) id =
      (storeGet st id).map
        (fun j => { j with expiresAt := some (n + t), cleanupTimer := true }) := by
  unfold scheduleCleanup
  cases h : storeGet st id <;> simp [h, storeGet_updateJob_self]

theorem diskHas_diskRemove_self (d : Disk) (p : String) :
    diskHas (diskRemove d p) p = false := by
  induction d with
  | nil => rfl
  | cons q rest ih =>
    by_cases h : q = p <;> simp [diskRemove, diskHas, h, ih]

theorem diskHas_diskRemove_ne (d : Disk) (p q : String) (h : q ≠ p) :
    diskHas (diskRemove d p) q = diskHas d q := by
  induction d with
  | nil => rfl
  | cons r rest ih =>
    by_cases h2 : r = p
    · subst h2
      simp [diskRemove, diskHas, Ne.symm h, ih]
    · simp only [diskRemove, if_neg h2]
      by_cases h3 : r = q <;> simp [diskHas, h3, ih]

theorem tryUnlinkFiles_absent (d : Disk) (j : Job) (o : FsOutcome)
    (hi : diskHas d j.inputPath = false) (ho : diskHas d j.outputPath = false) :
    tryUnlinkFiles d j o = d := by
  unfold tryUnlinkFiles unlinkIfPresent
  simp [hi, ho]

theorem statusAt_onProgress (st : Store) (id : String) (p : Option ℚ) :
    statusAt (onProgress st id p) id = statusAt st id := by
  simp only [onProgress, statusAt, storeGet_updateJob_self]
  cases storeGet st id <;> rfl

theorem storeGet_onProgress (st : Store) (id : String) (p : Option ℚ) :
    storeGet (onProgress st id p) id =
      (storeGet st id).map (fun j => { j with progress := jsRound (jsOrZero p) }) := by
  simp [onProgress, storeGet_updateJob_self]

theorem storeGet_onEnd (st : Store) (id : String) (ttl now : Nat) :
    storeGet (onEnd st id ttl now) id =
      (storeGet st id).map
        (fun j => { j with status := Status.done, progress := 100, finishedAt := some now,
                           expiresAt := some (now + ttl), cleanupTimer := true }) := by
  unfold onEnd
  rw [storeGet_scheduleCleanup_self, storeGet_updateJob_self]
  cases storeGet st id <;> rfl

theorem storeGet_onErrorEvent (st : Store) (id msg : String) (ttl now : Nat) :
    storeGet (onErrorEvent st id msg ttl now) id =
      (storeGet st id).map
        (fun j => { j with status := Status.error, errorMessage := some msg,
                           finishedAt := some now,
                           expiresAt := some (now + ttl), cleanupTimer := true }) := by
  unfold onErrorEvent
  rw [storeGet_scheduleCleanup_self, storeGet_updateJob_self]
  cases storeGet st id <;> rfl

theorem storeGet_onCatch (st : Store) (id msg : String) (ttl now : Nat) :
    storeGet (onCatch st id msg ttl now) id =
      (storeGet st id).map
        (fun j => { j with status := Status.error, errorMessage := some msg,
                           expiresAt := some (now + ttl), cleanupTimer := true }) := by
  unfold onCatch
  rw [storeGet_scheduleCleanup_self, storeGet_updateJob_self]
  cases storeGet st id <;> rfl

theorem statusStepOk_refl (s : Option Status) : statusStepOk s s = true := by
  cases s with
  | none => rfl
  | some s => cases s <;> rfl

theorem statusStepOk_none (s : Option Status) : statusStepOk s none = true := by
  cases s with
  | none => rfl
  | some s => cases s <;> rfl

theorem sweepGo_absent (entries : List (String × Job)) (id : String) :
    ∀ (st : Store) (d : Disk) (now : Nat) (o : String → FsOutcome),
      storeGet st id = none → storeGet (sweepGo entries st d now o).1 id = none := by
  induction entries with
  | nil =>
    intro st d now o h
    simpa [sweepGo] using h
  | cons p rest ih =>
    obtain ⟨k, job⟩ := p
    intro st d now o h
    by_cases hs : sweepEntry job now = true
    · simp only [sweepGo, hs, if_pos]
      apply ih
      by_cases hk : k = id
      · subst hk
        exact storeGet_storeDelete_self st k
      · rw [storeGet_storeDelete_ne st k id hk]
        exact h
    · simp only [sweepGo, if_neg hs]
      exact ih st d now o h

theorem sweepGo_removes (entries : List (String × Job)) (id : String) (j : Job) (now : Nat)
    (hget : storeGet entries id = some j) (hexp : sweepEntry j now = true) :
    ∀ (st : Store) (d : Disk) (o : String → FsOutcome),
      storeGet (sweepGo entries st d now o).1 id = none := by
  induction entries with
  | nil => simp [storeGet] at hget
  | cons p rest ih =>
    obtain ⟨k, job⟩ := p
    intro st d o
    by_cases hk : k = id
    · subst hk
      have hj : job = j := by simpa [storeGet] using hget
      subst hj
      simp only [sweepGo, hexp, if_pos]
      exact sweepGo_absent rest k _ _ now o (storeGet_storeDelete_self st k)
    · have hget2 : storeGet rest id = some j := by simpa [storeGet, hk] using hget
      by_cases hs : sweepEntry job now = true
      · simp only [sweepGo, hs, if_pos]
        exact ih hget2 _ _ o
      · simp only [sweepGo, if_neg hs]
        exact ih hget2 _ _ o

theorem sweepGo_get_or_none (entries : List (String × Job)) (id : String) :
    ∀ (st : Store) (d : Disk) (now : Nat) (o : String → FsOutcome),
      storeGet (sweepGo entries st d now o).1 id = storeGet st id ∨
        storeGet (sweepGo entries st d now o).1 id = none := by
  induction entries with
  | nil =>
    intro st d now o
    left
    rfl
  | cons p rest ih =>
    obtain ⟨k, job⟩ := p
    intro st d now o
    by_cases hs : sweepEntry job now = true
    · simp only [sweepGo, hs, if_pos]
      by_cases hk : k = id
      · subst hk
        right
        exact sweepGo_absent rest k _ _ now o (storeGet_storeDelete_self st k)
      · rcases ih (storeDelete st k) (tryUnlinkFiles d job (o k)) now o with h | h
        · rw [storeGet_storeDelete_ne st k id hk] at h
          exact Or.inl h
        · exact Or.inr h
    · simp only [sweepGo, if_neg hs]
      exact ih st d now o

theorem sweepOnce_get_or_none (st : Store) (d : Disk) (now : Nat)
    (o : String → FsOutcome) (id : String) :
    storeGet (sweepOnce st d now o).1 id = storeGet st id ∨
      storeGet (sweepOnce st d now o).1 id = none :=
  sweepGo_get_or_none st id st d now o

theorem applyEv_step (ttl : Nat) (jobId : String) (st : Store) (d : Disk)
    (started finished : Bool) (e : Ev)
    (hreq : evReq started finished e = true)
    (hinv : jobInv started finished (storeGet st jobId)) :
    statusStepOk (statusAt st jobId) (statusAt (applyEv ttl jobId (st, d) e).1 jobId) = true ∧
      jobInv (evNext started finished e).1 (evNext started finished e).2
        (storeGet (applyEv ttl jobId (st, d) e).1 jobId) := by
  cases e with
  | start =>
    have hf : finished = false := by simpa [evReq] using hreq
    subst hf
    cases hget : storeGet st jobId with
    | none =>
      have hcs : convertStart st jobId = st := by simp [convertStart, hget]
      refine ⟨?_, ?_⟩
      · simp [applyEv, hcs, statusAt, hget, statusStepOk]
      · simp [applyEv, hcs, evNext, jobInv, hget]
    | some j =>
      rw [hget] at hinv
      simp only [jobInv] at hinv
      obtain ⟨hwf, hstat⟩ := hinv
      have hcs : storeGet (convertStart st jobId) jobId
          = some { j with status := Status.processing } := by
        simp [convertStart, hget, storeGet_updateJob_self]
      have h1 : statusAt st jobId = some j.status := by simp [statusAt, hget]
      have h2 : statusAt (applyEv ttl jobId (st, d) Ev.start).1 jobId
          = some Status.processing := by
        simp [applyEv, statusAt, hcs]
      cases hstarted : started with
      | false =>
        rw [hstarted] at hstat
        have hq : j.status = Status.queued := by simpa using hstat
        have hmsg : j.errorMessage = none := by
          cases hE : j.errorMessage with
          | none => rfl
          | some m =>
            have hcontra := hwf.mp (by simp [hE])
            rw [hq] at hcontra
            simp at hcontra
        refine ⟨?_, ?_⟩
        · rw [h1, h2, hq]
          rfl
        · simp [applyEv, evNext, jobInv, hcs, JobWF, hmsg]
      | true =>
        rw [hstarted] at hstat
        have hq : j.status = Status.processing := by simpa using hstat
        have hmsg : j.errorMessage = none := by
          cases hE : j.errorMessage with
          | none => rfl
          | some m =>
            have hcontra := hwf.mp (by simp [hE])
            rw [hq] at hcontra
            simp at hcontra
        refine ⟨?_, ?_⟩
        · rw [h1, h2, hq]
          rfl
        · simp [applyEv, evNext, jobInv, hcs, JobWF, hmsg]
  | progress p =>
    refine ⟨?_, ?_⟩
    · have h : statusAt (applyEv ttl jobId (st, d) (Ev.progress p)).1 jobId = statusAt st jobId := by
        simp [applyEv, statusAt_onProgress]
      rw [h]
      exact statusStepOk_refl _
    · simp only [applyEv, evNext, storeGet_onProgress]
      cases hget : storeGet st jobId with
      | none => simp [jobInv]
      | some j =>
        rw [hget] at hinv
        simp only [jobInv] at hinv ⊢
        simpa [JobWF] using hinv
  | success now =>
    have hreq2 : started = true ∧ finished = false := by simpa [evReq] using hreq
    obtain ⟨hstart, hfin⟩ := hreq2
    subst hstart hfin
    cases hget : storeGet st jobId with
    | none =>
      refine ⟨?_, ?_⟩
      · simp [applyEv, statusAt, hget, storeGet_onEnd, statusStepOk]
      · simp [applyEv, evNext, jobInv, storeGet_onEnd, hget]
    | some j =>
      rw [hget] at hinv
      simp only [jobInv] at hinv
      obtain ⟨hwf, hstat⟩ := hinv
      have hq : j.status = Status.processing := by simpa using hstat
      have hmsg : j.errorMessage = none := by
        cases hE : j.errorMessage with
        | none => rfl
        | some m =>
          have hcontra := hwf.mp (by simp [hE])
          rw [hq] at hcontra
          simp at hcontra
      have h1 : statusAt st jobId = some j.status := by simp [statusAt, hget]
      have h2 : statusAt (applyEv ttl jobId (st, d) (Ev.success now)).1 jobId
          = some Status.done := by
        simp [applyEv, statusAt, storeGet_onEnd, hget]
      refine ⟨?_, ?_⟩
      · rw [h1, h2, hq]
        rfl
      · simp [applyEv, evNext, jobInv, storeGet_onEnd, hget, JobWF, hmsg]
  | failure msg now =>
    have hreq2 : started = true ∧ finished = false := by simpa [evReq] using hreq
    obtain ⟨hstart, hfin⟩ := hreq2
    subst hstart hfin
    cases hget : storeGet st jobId with
    | none =>
      refine ⟨?_, ?_⟩
      · simp [applyEv, statusAt, hget, storeGet_onErrorEvent, statusStepOk]
      · simp [applyEv, evNext, jobInv, storeGet_onErrorEvent, hget]
    | some j =>
      rw [hget] at hinv
      simp only [jobInv] at hinv
      obtain ⟨hwf, hstat⟩ := hinv
      have hq : j.status = Status.processing := by simpa using hstat
      have h1 : statusAt st jobId = some j.status := by simp [statusAt, hget]
      have h2 : statusAt (applyEv ttl jobId (st, d) (Ev.failure msg now)).1 jobId
          = some Status.error := by
        simp [applyEv, statusAt, storeGet_onErrorEvent, hget]
      refine ⟨?_, ?_⟩
      · rw [h1, h2, hq]
        rfl
      · simp [applyEv, evNext, jobInv, storeGet_onErrorEvent, hget, JobWF]
  | exn msg now =>
    have hreq2 : started = true ∧ finished = false := by simpa [evReq] using hreq
    obtain ⟨hstart, hfin⟩ := hreq2
    subst hstart hfin
    cases hget : storeGet st jobId with
    | none =>
      refine ⟨?_, ?_⟩
      · simp [applyEv, statusAt, hget, storeGet_onCatch, statusStepOk]
      · simp [applyEv, evNext, jobInv, storeGet_onCatch, hget]
    | some j =>
      rw [hget] at hinv
      simp only [jobInv] at hinv
      obtain ⟨hwf, hstat⟩ := hinv
      have hq : j.status = Status.processing := by simpa using hstat
      have h1 : statusAt st jobId = some j.status := by simp [statusAt, hget]
      have h2 : statusAt (applyEv ttl jobId (st, d) (Ev.exn msg now)).1 jobId
          = some Status.error := by
        simp [applyEv, statusAt, storeGet_onCatch, hget]
      refine ⟨?_, ?_⟩
      · rw [h1, h2, hq]
        rfl
      · simp [applyEv, evNext, jobInv, storeGet_onCatch, hget, JobWF]
  | timerFired captured o =>
    refine ⟨?_, ?_⟩
    · have h : statusAt (applyEv ttl jobId (st, d) (Ev.timerFired captured o)).1 jobId = none := by
        simp [applyEv, cleanupTimerFire, statusAt, storeGet_storeDelete_self]
      rw [h]
      exact statusStepOk_none _
    · simp [applyEv, cleanupTimerFire, evNext, jobInv, storeGet_storeDelete_self]
  | sweep now o =>
    rcases sweepOnce_get_or_none st d now o jobId with h | h
    · refine ⟨?_, ?_⟩
      · have h2 : statusAt (applyEv ttl jobId (st, d) (Ev.sweep now o)).1 jobId
            = statusAt st jobId := by
          simp [applyEv, statusAt, h]
        rw [h2]
        exact statusStepOk_refl _
      · simp only [applyEv, evNext]
        rw [h]
        exact hinv
    · refine ⟨?_, ?_⟩
      · have h2 : statusAt (applyEv ttl jobId (st, d) (Ev.sweep now o)).1 jobId = none := by
          simp [applyEv, statusAt, h]
        rw [h2]
        exact statusStepOk_none _
      · simp only [applyEv, evNext]
        rw [h]
        simp [jobInv]

theorem runEvents_cons (ttl : Nat) (jobId : String) (sys : Store × Disk) (e : Ev) (es : List Ev) :
    runEvents ttl jobId sys (e :: es) = runEvents ttl jobId (applyEv ttl jobId sys e) es := rfl

theorem c1_aux (ttl : Nat) (jobId : String) :
    ∀ (pre : List Ev) (started finished : Bool) (st : Store) (d : Disk) (e : Ev) (post : List Ev),
      validFrom started finished (pre ++ e :: post) = true →
      jobInv started finished (storeGet st jobId) →
      statusStepOk (statusAt (runEvents ttl jobId (st, d) pre).1 jobId)
        (statusAt (runEvents ttl jobId (st, d) (pre ++ [e])).1 jobId) = true := by
  intro pre
  induction pre with
  | nil =>
    intro started finished st d e post hv hinv
    simp only [List.nil_append, validFrom, Bool.and_eq_true] at hv
    have hstep := applyEv_step ttl jobId st d started finished e hv.1 hinv
    simpa [runEvents] using hstep.1
  | cons p pre ih =>
    intro started finished st d e post hv hinv
    simp only [List.cons_append, validFrom, Bool.and_eq_true] at hv
    obtain ⟨hreqp, hv2⟩ := hv
    have hstep := applyEv_step ttl jobId st d started finished p hreqp hinv
    cases hsys : applyEv ttl jobId (st, d) p with
    | mk st2 d2 =>
      rw [hsys] at hstep
      have hrec := ih (evNext started finished p).1 (evNext started finished p).2
        st2 d2 e post hv2 hstep.2
      simpa [runEvents_cons, hsys] using hrec

/-- C1: along any admissible callback sequence (creation first, then ffmpeg events
under the encoder contract, timer firings and sweeps), the status of the record a
job was created with only moves forward through `queued → processing → {done,
error}`: at every step of the trace the observed status pair is an admissible
forward step, terminal statuses never change, and a deleted record stays deleted. -/
theorem claim1_status_monotone (ttl : Nat) (stPre : Store) (jobId inputPath : String)
    (now : Nat) (d0 : Disk) (es pre post : List Ev) (e : Ev)
    (hv : validFrom false false es = true)
    (hsplit : es = pre ++ e :: post) :
    statusStepOk
      (statusAt (runEvents ttl jobId ((uploadCreate stPre jobId inputPath now).1, d0) pre).1 jobId)
      (statusAt
        (runEvents ttl jobId ((uploadCreate stPre jobId inputPath now).1, d0) (pre ++ [e])).1 jobId)
      = true := by
  subst hsplit
  apply c1_aux ttl jobId pre false false _ d0 e post hv
  simp [uploadCreate, storeGet_storeSet_self, jobInv, mkJob, JobWF]

/-- Witness for C1: a freshly created job, started and then completed, takes the
forward step `processing → done` at the success event. -/
theorem claim1_status_monotone_witness :
    statusStepOk
      (statusAt (runEvents 1000 "j" ((uploadCreate [] "j" "/tmp/in" 0).1, []) [Ev.start]).1 "j")
      (statusAt
        (runEvents 1000 "j" ((uploadCreate [] "j" "/tmp/in" 0).1, []) ([Ev.start] ++ [Ev.success 5])).1 "j")
      = true :=
  claim1_status_monotone 1000 [] "j" "/tmp/in" 0 [] [Ev.start, Ev.success 5]
    [Ev.start] [] (Ev.success 5) (by decide) rfl

theorem unlinkIfPresent_ok (d : Disk) (p : String) :
    unlinkIfPresent d p false =
      some (if p ≠ "" ∧ diskHas d p = true then diskRemove d p else d) := by
  unfold unlinkIfPresent
  by_cases h : p ≠ "" ∧ diskHas d p = true <;> simp [h]

theorem diskHas_mono_remove (d : Disk) (p q : String) (h : diskHas d q = false) :
    diskHas (diskRemove d p) q = false := by
  by_cases hpq : q = p
  · subst hpq
    exact diskHas_diskRemove_self d q
  · rw [diskHas_diskRemove_ne d p q hpq]
    exact h

theorem tryUnlinkFiles_fsOk_eq (d : Disk) (j : Job) :
    tryUnlinkFiles d j fsOk =
      (if j.outputPath ≠ "" ∧
          diskHas (if j.inputPath ≠ "" ∧ diskHas d j.inputPath = true
                   then diskRemove d j.inputPath else d) j.outputPath = true
       then diskRemove (if j.inputPath ≠ "" ∧ diskHas d j.inputPath = true
                        then diskRemove d j.inputPath else d) j.outputPath
       else (if j.inputPath ≠ "" ∧ diskHas d j.inputPath = true
             then diskRemove d j.inputPath else d)) := by
  by_cases hi : j.inputPath ≠ "" ∧ diskHas d j.inputPath = true
  · by_cases ho : j.outputPath ≠ "" ∧ diskHas (diskRemove d j.inputPath) j.outputPath = true <;>
      simp [tryUnlinkFiles, unlinkIfPresent, fsOk, hi, ho]
  · by_cases ho : j.outputPath ≠ "" ∧ diskHas d j.outputPath = true <;>
      simp [tryUnlinkFiles, unlinkIfPresent, fsOk, hi, ho]

theorem tryUnlinkFiles_fsOk_idem (d : Disk) (j : Job) :
    tryUnlinkFiles (tryUnlinkFiles d j fsOk) j fsOk = tryUnlinkFiles d j fsOk := by
  rw [tryUnlinkFiles_fsOk_eq d j, tryUnlinkFiles_fsOk_eq]
  by_cases hi : j.inputPath ≠ "" ∧ diskHas d j.inputPath = true
  · by_cases ho : j.outputPath ≠ "" ∧ diskHas (diskRemove d j.inputPath) j.outputPath = true
    · have hro : diskHas (diskRemove (diskRemove d j.inputPath) j.outputPath) j.outputPath = false :=
        diskHas_diskRemove_self _ _
      have hri : diskHas (diskRemove (diskRemove d j.inputPath) j.outputPath) j.inputPath = false :=
        diskHas_mono_remove _ _ _ (diskHas_diskRemove_self d j.inputPath)
      simp [hi, ho, hri, hro]
    · have hdi : diskHas (diskRemove d j.inputPath) j.inputPath = false :=
        diskHas_diskRemove_self d j.inputPath
      simp [hi, ho, hdi]
  · by_cases ho : j.outputPath ≠ "" ∧ diskHas d j.outputPath = true
    · have hro : diskHas (diskRemove d j.outputPath) j.outputPath = false :=
        diskHas_diskRemove_self d j.outputPath
      have hri : ¬(j.inputPath ≠ "" ∧ diskHas (diskRemove d j.outputPath) j.inputPath = true) := by
        intro hcon
        obtain ⟨hne, hhas⟩ := hcon
        cases hdi : diskHas d j.inputPath with
        | true => exact hi ⟨hne, hdi⟩
        | false =>
          have habs := diskHas_mono_remove d j.outputPath j.inputPath hdi
          simp [habs] at hhas
      simp [hi, ho, hri, hro]
    · simp [hi, ho]

theorem storeDelete_idem (st : Store) (id : String) :
    storeDelete (storeDelete st id) id = storeDelete st id :=
  storeDelete_absent _ _ (storeGet_storeDelete_self st id)

/-- C2: eviction is idempotent and exactly-once in effect.  Deleting artifact
files that are already absent is a no-op, `jobs.delete` on an absent id is a
no-op, running the per-job timer and the sweep for the same expired job in
either order leaves the store without that id, an id once absent stays absent
under further timer firings and sweeps, and re-running the timer cleanup is a
no-op on both the store and the disk (no duplicated side effect). -/
theorem claim2_eviction_idempotent (st : Store) (d : Disk) (id : String) (j : Job)
    (now texp : Nat)
    (hget : storeGet st id = some j) (hexp : j.expiresAt = some texp)
    (h0 : texp ≠ 0) (hle : texp ≤ now) :
    (∀ (d2 : Disk) (o : FsOutcome), diskHas d2 j.inputPath = false →
        diskHas d2 j.outputPath = false → tryUnlinkFiles d2 j o = d2) ∧
    (∀ st2 : Store, storeGet st2 id = none → storeDelete st2 id = st2) ∧
    storeGet (cleanupTimerFire st d id j fsOk).1 id = none ∧
    storeGet (sweepOnce (cleanupTimerFire st d id j fsOk).1 (cleanupTimerFire st d id j fsOk).2
        now (fun _ => fsOk)).1 id = none ∧
    storeGet (sweepOnce st d now (fun _ => fsOk)).1 id = none ∧
    storeGet (cleanupTimerFire (sweepOnce st d now (fun _ => fsOk)).1
        (sweepOnce st d now (fun _ => fsOk)).2 id j fsOk).1 id = none ∧
    (∀ (st3 : Store) (d3 : Disk) (o : FsOutcome) (oS : String → FsOutcome) (n3 : Nat),
        storeGet st3 id = none →
        storeGet (cleanupTimerFire st3 d3 id j o).1 id = none ∧
        storeGet (sweepOnce st3 d3 n3 oS).1 id = none) ∧
    cleanupTimerFire (cleanupTimerFire st d id j fsOk).1 (cleanupTimerFire st d id j fsOk).2
        id j fsOk = cleanupTimerFire st d id j fsOk := by
  have hsw : sweepEntry j now = true := by simp [sweepEntry, hexp, h0, hle]
  refine ⟨?_, ?_, ?_, ?_, ?_, ?_, ?_, ?_⟩
  · intro d2 o hi ho
    exact tryUnlinkFiles_absent d2 j o hi ho
  · intro st2 h
    exact storeDelete_absent st2 id h
  · exact storeGet_storeDelete_self st id
  · exact sweepGo_absent (cleanupTimerFire st d id j fsOk).1 id
      (cleanupTimerFire st d id j fsOk).1 (cleanupTimerFire st d id j fsOk).2
      now (fun _ => fsOk) (storeGet_storeDelete_self st id)
  · exact sweepGo_removes st id j now hget hsw st d (fun _ => fsOk)
  · exact storeGet_storeDelete_self _ id
  · intro st3 d3 o oS n3 h
    exact ⟨storeGet_storeDelete_self st3 id, sweepGo_absent st3 id st3 d3 n3 oS h⟩
  · have h1 := storeDelete_idem st id
    have h2 := tryUnlinkFiles_fsOk_idem d j
    simp [cleanupTimerFire, h1, h2]

/-- A terminal job whose TTL has expired, used to exercise the eviction claims. -/
def c2Job : Job :=
  { mkJob "j" "/tmp/in" 0 with
      status := Status.done, progress := 100, finishedAt := some 4,
      expiresAt := some 5, cleanupTimer := true }

/-- A store holding only the expired job. -/
def c2St : Store := [("j", c2Job)]

/-- A disk holding the job's input file. -/
def c2Disk : Disk := ["/tmp/in"]

/-- Witness for C2: for a concrete expired job, the timer removes it, the sweep
removes it, and re-running the timer cleanup changes nothing. -/
theorem claim2_eviction_idempotent_witness :
    storeGet (cleanupTimerFire c2St c2Disk "j" c2Job fsOk).1 "j" = none ∧
    storeGet (sweepOnce c2St c2Disk 10 (fun _ => fsOk)).1 "j" = none ∧
    cleanupTimerFire (cleanupTimerFire c2St c2Disk "j" c2Job fsOk).1
        (cleanupTimerFire c2St c2Disk "j" c2Job fsOk).2 "j" c2Job fsOk
      = cleanupTimerFire c2St c2Disk "j" c2Job fsOk := by
  have h := claim2_eviction_idempotent c2St c2Disk "j" c2Job 10 5
    (by decide) (by decide) (by decide) (by decide)
  exact ⟨h.2.2.1, h.2.2.2.2.1, h.2.2.2.2.2.2.2⟩

/-- C3: for a job in `processing`, the success event sets `status = done` and
`progress = 100`, stamps `finishedAt = now`, and arms eviction: `expiresAt =
now + TTL` with the cleanup timer scheduled. -/
theorem claim3_success_transition (st : Store) (id : String) (j : Job) (ttl now : Nat)
    (hget : storeGet st id = some j) (_hst : j.status = Status.processing) :
    storeGet (onEnd st id ttl now) id =
      some { j with status := Status.done, progress := 100, finishedAt := some now,
                    expiresAt := some (now + ttl), cleanupTimer := true } := by
  rw [storeGet_onEnd, hget]
  rfl

/-- A job in `processing`, registered in a one-job store. -/
def procJob : Job := { mkJob "j" "/tmp/in" 0 with status := Status.processing }

/-- Store holding only the processing job. -/
def procSt : Store := [("j", procJob)]

/-- Witness for C3: the success event at time 5 with TTL 1000 produces the
expected done record. -/
theorem claim3_success_transition_witness :
    storeGet (onEnd procSt "j" 1000 5) "j" =
      some { procJob with status := Status.done, progress := 100, finishedAt := some 5,
                          expiresAt := some (5 + 1000), cleanupTimer := true } :=
  claim3_success_transition procSt "j" procJob 1000 5 (by decide) (by decide)

/-- Counterexample to C4: the catch path of `convertToMp3` is not identical to
the `'error'` event handler — for the same processing job and the same message
and time, the `'error'` handler stamps `finishedAt` while the catch block leaves
it unset. -/
theorem claim4_catch_cex :
    (storeGet (onCatch procSt "j" "boom" 1000 5) "j").map Job.finishedAt = some none ∧
    (storeGet (onErrorEvent procSt "j" "boom" 1000 5) "j").map Job.finishedAt = some (some 5) ∧
    (storeGet (onCatch procSt "j" "boom" 1000 5) "j").map Job.finishedAt ≠
      (storeGet (onErrorEvent procSt "j" "boom" 1000 5) "j").map Job.finishedAt := by
  refine ⟨?_, ?_, ?_⟩ <;> decide

/-- C4 as amended: an exception while invoking the encoder is handled like a
Failure event in that `status` becomes `error`, `errorMessage` records the
reason and eviction is armed; but only the Failure-event path stamps
`finishedAt` — the exception path leaves `finishedAt` unchanged. -/
theorem claim4_amended_exception_handling (st : Store) (id : String) (j : Job)
    (msg : String) (ttl now : Nat)
    (hget : storeGet st id = some j) (_hst : j.status = Status.processing) :
    storeGet (onErrorEvent st id msg ttl now) id =
      some { j with status := Status.error, errorMessage := some msg, finishedAt := some now,
                    expiresAt := some (now + ttl), cleanupTimer := true } ∧
    storeGet (onCatch st id msg ttl now) id =
      some { j with status := Status.error, errorMessage := some msg,
                    expiresAt := some (now + ttl), cleanupTimer := true } := by
  constructor
  · rw [storeGet_onErrorEvent, hget]
    rfl
  · rw [storeGet_onCatch, hget]
    rfl

/-- Witness for the amended C4 at a concrete processing job. -/
theorem claim4_amended_witness :
    storeGet (onCatch procSt "j" "boom" 1000 5) "j" =
      some { procJob with status := Status.error, errorMessage := some "boom",
                          expiresAt := some (5 + 1000), cleanupTimer := true } :=
  (claim4_amended_exception_handling procSt "j" procJob "boom" 1000 5
    (by decide) (by decide)).2

/-- C5: the download handler answers NotFound exactly for ids absent from the
store; for a present job it answers NotReady exactly when the status is not
`done` or the output file is absent from disk, and it streams the artifact
when the status is `done` and the file is present (it checks the disk, not
just the status). -/
theorem claim5_download_gating (st : Store) (d : Disk) (id : String) :
    (storeGet st id = none → downloadHandler st d id = DownloadResp.notFound) ∧
    (∀ j, storeGet st id = some j →
      ((downloadHandler st d id = DownloadResp.notReady) ↔
        (j.status ≠ Status.done ∨ diskHas d j.outputPath = false)) ∧
      (j.status = Status.done → diskHas d j.outputPath = true →
        downloadHandler st d id =
          DownloadResp.fileStream j.outputPath ("audio-" ++ j.id ++ ".mp3"))) := by
  constructor
  · intro h
    simp [downloadHandler, h]
  · intro j hget
    constructor
    · by_cases hc : j.status ≠ Status.done ∨ diskHas d j.outputPath = false <;>
        simp [downloadHandler, hget, hc]
    · intro hs hd
      have hc : ¬(j.status ≠ Status.done ∨ diskHas d j.outputPath = false) := by
        simp [hs, hd]
      simp [downloadHandler, hget, hc]

/-- A finished job with its artifact still on disk. -/
def doneJob : Job :=
  { mkJob "j" "/tmp/in" 0 with
      status := Status.done, progress := 100, finishedAt := some 5,
      expiresAt := some 1005, cleanupTimer := true }

/-- Store holding only the finished job. -/
def doneSt : Store := [("j", doneJob)]

/-- Disk holding the finished job's output artifact. -/
def doneDisk : Disk := [outputPathFor "j"]

/-- Witness for C5: streaming when done with the file present, NotReady once the
file is gone, NotFound for an unknown id. -/
theorem claim5_download_gating_witness :
    downloadHandler doneSt doneDisk "j" =
      DownloadResp.fileStream doneJob.outputPath ("audio-" ++ doneJob.id ++ ".mp3") ∧
    downloadHandler doneSt [] "j" = DownloadResp.notReady ∧
    downloadHandler [] [] "j" = DownloadResp.notFound := by
  refine ⟨?_, ?_, ?_⟩
  · exact ((claim5_download_gating doneSt doneDisk "j").2 doneJob (by decide)).2
      (by decide) (by decide)
  · exact ((claim5_download_gating doneSt [] "j").2 doneJob (by decide)).1.mpr (by decide)
  · exact (claim5_download_gating [] [] "j").1 (by decide)

/-- C6: for an id present in the store (with the error-message field populated
exactly on status `error`, as holds for every reachable record) the status
payload carries a download reference iff the status is `done` and an error
message iff the status is `error`; an absent id answers NotFound. -/
theorem claim6_status_projection (st : Store) (id : String) :
    (storeGet st id = none → statusHandler st id = StatusResp.notFound) ∧
    (∀ j, storeGet st id = some j → JobWF j →
      ∃ p, statusHandler st id = StatusResp.ok p ∧
        ((p.downloadUrl.isSome = true) ↔ j.status = Status.done) ∧
        ((p.errorMessage.isSome = true) ↔ j.status = Status.error)) := by
  constructor
  · intro h
    simp [statusHandler, h]
  · intro j hget hwf
    refine ⟨{ id := j.id, status := j.status,
              progress := if j.progress = 0 then 0 else j.progress,
              downloadUrl := if j.status = Status.done
                             then some ("/api/download/" ++ j.id) else none,
              errorMessage := j.errorMessage }, ?_, ?_, ?_⟩
    · simp [statusHandler, hget]
    · by_cases hs : j.status = Status.done <;> simp [hs]
    · exact hwf

/-- Witness for C6: the finished job's payload has a download url and no error
message; an unknown id is NotFound. -/
theorem claim6_status_projection_witness :
    (∃ p, statusHandler doneSt "j" = StatusResp.ok p ∧
      ((p.downloadUrl.isSome = true) ↔ doneJob.status = Status.done) ∧
      ((p.errorMessage.isSome = true) ↔ doneJob.status = Status.error)) ∧
    statusHandler [] "j" = StatusResp.notFound := by
  constructor
  · exact (claim6_status_projection doneSt "j").2 doneJob (by decide)
      (by simp [JobWF, doneJob, mkJob])
  · exact (claim6_status_projection [] "j").1 (by decide)

/-- C7: the upload handler synchronously registers a record with `status =
queued` and `progress = 0`, so a status lookup performed on the store it leaves
behind (before any later scheduling turn) reports `queued` with progress 0. -/
theorem claim7_upload_creates_queued (st : Store) (jobId inputPath : String) (now : Nat) :
    storeGet (uploadCreate st jobId inputPath now).1 jobId = some (mkJob jobId inputPath now) ∧
    (mkJob jobId inputPath now).status = Status.queued ∧
    (mkJob jobId inputPath now).progress = 0 ∧
    statusHandler (uploadCreate st jobId inputPath now).1 jobId =
      StatusResp.ok { id := jobId, status := Status.queued, progress := 0,
                      downloadUrl := none, errorMessage := none } := by
  refine ⟨storeGet_storeSet_self st jobId _, rfl, rfl, ?_⟩
  simp [statusHandler, uploadCreate, storeGet_storeSet_self, mkJob]

theorem jsRound_bounds (q : ℚ) (h0 : 0 ≤ q) (h100 : q ≤ 100) :
    0 ≤ jsRound q ∧ jsRound q ≤ 100 := by
  constructor
  · rw [jsRound, Int.le_floor]
    push_cast
    linarith
  · rw [jsRound, ← Int.lt_add_one_iff, Int.floor_lt]
    push_cast
    linarith

theorem jsRound_zero : jsRound 0 = 0 := by
  have h1 : (0 : ℤ) ≤ jsRound 0 := (jsRound_bounds 0 le_rfl (by norm_num)).1
  have h2 : jsRound 0 < 1 := by
    rw [jsRound, Int.floor_lt]
    push_cast
    norm_num
  omega

theorem jsRound_150 : jsRound 150 = 150 := by
  have h1 : (150 : ℤ) ≤ jsRound 150 := by
    rw [jsRound, Int.le_floor]
    push_cast
    norm_num
  have h2 : jsRound 150 < 151 := by
    rw [jsRound, Int.floor_lt]
    push_cast
    norm_num
  omega

/-- Counterexample to C8: the progress handler stores `Math.round(p.percent || 0)`
without clamping — an encoder report of 150 percent is stored as 150, strictly
above the claimed upper bound of 100. -/
theorem claim8_progress_clamp_cex :
    (storeGet (onProgress procSt "j" (some 150)) "j").map Job.progress = some 150 ∧
    ¬((150 : Int) ≤ 100) := by
  constructor
  · rw [storeGet_onProgress, show storeGet procSt "j" = some procJob from by decide]
    have hz : jsOrZero (some 150) = 150 := by norm_num [jsOrZero]
    simp [hz, jsRound_150]
  · decide

/-- C8 as amended: the stored progress is `Math.round` of the reported
percentage, an absent report defaults to 0, and whenever the encoder reports a
percentage within 0–100 (or none) the stored integer lies within 0–100; no
clamping is applied to out-of-range reports. -/
theorem claim8_amended_progress (st : Store) (id : String) (j : Job) (p : Option ℚ)
    (hget : storeGet st id = some j)
    (hp : ∀ q, p = some q → 0 ≤ q ∧ q ≤ 100) :
    storeGet (onProgress st id p) id = some { j with progress := jsRound (jsOrZero p) } ∧
    (p = none → jsRound (jsOrZero p) = 0) ∧
    0 ≤ jsRound (jsOrZero p) ∧ jsRound (jsOrZero p) ≤ 100 := by
  refine ⟨?_, ?_, ?_⟩
  · rw [storeGet_onProgress, hget]
    rfl
  · intro hnone
    subst hnone
    simpa [jsOrZero] using jsRound_zero
  · cases p with
    | none => simp [jsOrZero, jsRound_zero]
    | some q =>
      obtain ⟨h0, h100⟩ := hp q rfl
      by_cases hq : q = 0
      · subst hq
        simp [jsOrZero, jsRound_zero]
      · simpa [jsOrZero, hq] using jsRound_bounds q h0 h100

/-- Witness for the amended C8: an in-range report of 50 percent. -/
theorem claim8_amended_witness :
    storeGet (onProgress procSt "j" (some 50)) "j" =
      some { procJob with progress := jsRound (jsOrZero (some 50)) } ∧
    ((some (50 : ℚ) = none) → jsRound (jsOrZero (some 50)) = 0) ∧
    0 ≤ jsRound (jsOrZero (some (50 : ℚ))) ∧ jsRound (jsOrZero (some (50 : ℚ))) ≤ 100 :=
  claim8_amended_progress procSt "j" procJob (some 50) (by decide)
    (by
      intro q hq
      injection hq with h
      subst h
      norm_num)

/-- C9: whatever the outcome of the filesystem deletions (including thrown
errors on either unlink), both the per-job timer callback and the periodic
sweep still remove the job from the store; the error is caught and never
surfaced. -/
theorem claim9_cleanup_errors_swallowed (st : Store) (d : Disk) (id : String) (j : Job)
    (o : FsOutcome) (oS : String → FsOutcome) (now texp : Nat)
    (hget : storeGet st id = some j) (hexp : j.expiresAt = some texp)
    (h0 : texp ≠ 0) (hle : texp ≤ now) :
    storeGet (cleanupTimerFire st d id j o).1 id = none ∧
    storeGet (sweepOnce st d now oS).1 id = none := by
  have hsw : sweepEntry j now = true := by simp [sweepEntry, hexp, h0, hle]
  exact ⟨storeGet_storeDelete_self st id, sweepGo_removes st id j now hget hsw st d oS⟩

/-- Witness for C9: even when both unlinks throw, the expired job is removed by
both eviction mechanisms. -/
theorem claim9_cleanup_errors_swallowed_witness :
    storeGet (cleanupTimerFire c2St c2Disk "j" c2Job ⟨true, true⟩).1 "j" = none ∧
    storeGet (sweepOnce c2St c2Disk 10 (fun _ => ⟨true, true⟩)).1 "j" = none :=
  claim9_cleanup_errors_swallowed c2St c2Disk "j" c2Job ⟨true, true⟩
    (fun _ => ⟨true, true⟩) 10 5 (by decide) (by decide) (by decide) (by decide)

theorem outputPathFor_inj (a b : String) (h : outputPathFor a = outputPathFor b) :
    a = b := by
  unfold outputPathFor at h
  have hd := congrArg String.data h
  simp only [String.data_append] at hd
  have h1 := List.append_cancel_left hd
  have h2 := List.append_cancel_right h1
  exact String.ext h2

/-- C10: two jobs created with distinct ids have distinct output paths (the
output path is the outputs directory joined with `id + '.mp3'`), so removing
one job's output artifact from disk never removes the other's. -/
theorem claim10_output_paths_distinct (id1 id2 ip1 ip2 : String) (t1 t2 : Nat)
    (h : id1 ≠ id2) :
    (mkJob id1 ip1 t1).outputPath ≠ (mkJob id2 ip2 t2).outputPath ∧
    ∀ d : Disk, diskHas d (mkJob id2 ip2 t2).outputPath = true →
      diskHas (diskRemove d (mkJob id1 ip1 t1).outputPath) (mkJob id2 ip2 t2).outputPath
        = true := by
  have hne : outputPathFor id1 ≠ outputPathFor id2 := fun hc => h (outputPathFor_inj _ _ hc)
  constructor
  · simpa [mkJob] using hne
  · intro d hd
    rw [diskHas_diskRemove_ne]
    · exact hd
    · simpa [mkJob] using hne.symm

/-- Witness for C10: concrete ids `a` and `b`; removing `a`'s artifact keeps
`b`'s artifact on disk. -/
theorem claim10_output_paths_distinct_witness :
    (mkJob "a" "/tmp/a" 0).outputPath ≠ (mkJob "b" "/tmp/b" 1).outputPath ∧
    diskHas (diskRemove [outputPathFor "a", outputPathFor "b"] (mkJob "a" "/tmp/a" 0).outputPath)
      (mkJob "b" "/tmp/b" 1).outputPath = true := by
  have h := claim10_output_paths_distinct "a" "b" "/tmp/a" "/tmp/b" 0 1 (by decide)
  exact ⟨h.1, h.2 [outputPathFor "a", outputPathFor "b"] (by decide)⟩

theorem jobWF_runEvents (ttl : Nat) (jobId : String) :
    ∀ (es : List Ev) (started finished : Bool) (st : Store) (d : Disk),
      validFrom started finished es = true →
      jobInv started finished (storeGet st jobId) →
      ∀ j, storeGet (runEvents ttl jobId (st, d) es).1 jobId = some j → JobWF j := by
  intro es
  induction es with
  | nil =>
    intro started finished st d hv hinv j hj
    rw [show (runEvents ttl jobId (st, d) []) = (st, d) from rfl] at hj
    rw [hj] at hinv
    simp only [jobInv] at hinv
    exact hinv.1
  | cons e es ih =>
    intro started finished st d hv hinv j hj
    simp only [validFrom, Bool.and_eq_true] at hv
    obtain ⟨hreq, hv2⟩ := hv
    have hstep := applyEv_step ttl jobId st d started finished e hreq hinv
    cases hsys : applyEv ttl jobId (st, d) e with
    | mk st2 d2 =>
      rw [hsys] at hstep
      rw [runEvents_cons, hsys] at hj
      exact ih _ _ st2 d2 hv2 hstep.2 j hj

/-- Every record reachable from creation through an admissible callback sequence
satisfies `JobWF` (error message populated exactly on status `error`), the
hypothesis under which C6 speaks about stored jobs. -/
theorem jobWF_reachable (ttl : Nat) (stPre : Store) (jobId inputPath : String)
    (now : Nat) (d0 : Disk) (es : List Ev)
    (hv : validFrom false false es = true) :
    ∀ j,
      storeGet
        (runEvents ttl jobId ((uploadCreate stPre jobId inputPath now).1, d0) es).1 jobId
        = some j →
      JobWF j := by
  apply jobWF_runEvents ttl jobId es false false _ d0 hv
  simp [uploadCreate, storeGet_storeSet_self, jobInv, mkJob, JobWF]

end VMp3
